import Mathlib

/-!
Verification of the kapacitor task-execution engine against its
natural-language specification.

The definitions below are a shallow embedding of the Go sources:
`alert.go` (alert level classification, flap detection, stream/batch alert
dispatch, alert-node construction) and `task.go` (executing-task start,
snapshot and restore).  Go slices become `List`, Go `float64` flap
arithmetic becomes `ℚ` (the claims under study are about the algebraic
structure of the computation, which is identical over any ordered field),
Go `(value, error)` pairs become `Except`/`Option`, and Go maps become
association lists with explicit insert/lookup.
-/

namespace Kapacitor

/-! ## Alert levels (`alert.go`: `AlertLevel`, `String`)

Go declares `type AlertLevel int` with `iota` constants NoAlert=0,
InfoAlert=1, WarnAlert=2, CritAlert=3; levels are compared with the
integer order.  We keep them as `Nat`. -/

def NoAlert : Nat := 0

def InfoAlert : Nat := 1

def WarnAlert : Nat := 2

def CritAlert : Nat := 3

/-- `AlertLevel.String` from `alert.go`; the `default: panic` arm of the Go
switch is modelled as `none`. -/
def levelString (l : Nat) : Option String :=
  if l = NoAlert then some ("noalert")
  else if l = InfoAlert then some ("INFO")
  else if l = WarnAlert then some ("WARNING")
  else if l = CritAlert then some ("CRITICAL")
  else none

/-! ## Level classification (`alert.go`: `determineLevel`)

`EvalPredicate` (package `expr`, not part of the sources under study)
returns a `(bool, error)` pair; on an evaluation error the boolean is the
zero value `false`, so for one record each configured predicate has one of
three outcomes: it returns true, it returns false without error, or it
raises an evaluation error. -/

inductive PredOutcome where
  | passed
  | failed
  | errored
deriving DecidableEq, Fintype

/-- The loop body of `determineLevel`: walk `a.levels` with its index,
skipping `nil` entries; on `pass` record the index as the accumulated
level and continue; otherwise (evaluation error, which is logged, or a
plain `false`) return the accumulated level. -/
def detLoop : List (Option PredOutcome) → Nat → Nat → Nat
  | [], _, lvl => lvl
  | none :: rest, idx, lvl => detLoop rest (idx + 1) lvl
  | some o :: rest, idx, lvl =>
    match o with
    | .passed => detLoop rest (idx + 1) idx
    | .errored => lvl
    | .failed => lvl

/-- `determineLevel` from `alert.go`: iterate over the `levels` slice
(index = severity), starting from the zero value `NoAlert`. -/
def determineLevel (levels : List (Option PredOutcome)) : Nat :=
  detLoop levels 0 NoAlert

/-- The per-record outcome of the three configurable predicates of an
alert node.  `newAlertNode` builds `an.levels` with length `CritAlert+1`
and only ever fills indices `InfoAlert`, `WarnAlert`, `CritAlert`. -/
structure LevelPreds where
  info : Option PredOutcome
  warn : Option PredOutcome
  crit : Option PredOutcome
deriving DecidableEq, Fintype

/-- The `an.levels` slice as built by `newAlertNode`: index 0 (NoAlert) is
never assigned and stays `nil`. -/
def mkLevels (lp : LevelPreds) : List (Option PredOutcome) :=
  [none, lp.info, lp.warn, lp.crit]

/-! Specification-side formulations of the classification, written from
the spec's words, to be compared with `determineLevel`. -/

/-- The configured predicates, in ascending severity order, paired with
their severity. -/
def configuredLevels (levels : List (Option PredOutcome)) : List (Nat × PredOutcome) :=
  levels.enum.filterMap (fun p => p.2.map (fun o => (p.1, o)))

/-- Spec walk: consult the configured predicates in ascending severity
order; each `passed` updates the accumulated level to that severity; the
first `errored` stops and the accumulated level is returned; the first
`failed` stops and the accumulated level is returned. -/
def specWalk : List (Nat × PredOutcome) → Nat → Nat
  | [], acc => acc
  | (i, .passed) :: rest, _ => specWalk rest i
  | (_, .errored) :: _, acc => acc
  | (_, .failed) :: _, acc => acc

/-- The highest severity whose configured predicate outcome is `passed`
(`NoAlert` when none passes) — the reading of the claim that ignores the
early stop. -/
def highestPassingLevel (levels : List (Option PredOutcome)) : Nat :=
  (List.range levels.length).foldl
    (fun acc i => if levels.getD i none = some .passed then i else acc) NoAlert

/-- Whether every configured severity `j ≤ i` has outcome `passed`. -/
def cfgPassedUpTo (levels : List (Option PredOutcome)) (i : Nat) : Bool :=
  (List.range (i + 1)).all
    (fun j => levels.getD j none = none ∨ levels.getD j none = some .passed)

/-- The highest severity `i` such that the predicate at `i` is configured
and passes and every configured severity below `i` also passes (`NoAlert`
when there is none). -/
def highestPrefixPassing (levels : List (Option PredOutcome)) : Nat :=
  (List.range levels.length).foldl
    (fun acc i =>
      if levels.getD i none = some .passed ∧ cfgPassedUpTo levels i then i else acc)
    NoAlert

/-! ## Flap detection (`alert.go`: `updateFlapping` and its constants)

The Go arithmetic is on `float64`; we carry it out in `ℚ`, which has the
exact constants the source spells (`1.5`, `1.2`) and the same algebraic
structure; the claims under study concern the shape of the computation and
order comparisons against user thresholds. -/

def weightDiff : ℚ := 1.5

def maxWeight : ℚ := 1.2

/-- The flap-detection fields of `AlertNode`: the `history` ring of recent
levels, the ring index `hIdx`, and the `flapping` flag. -/
structure FlapState where
  history : List Nat
  hIdx : Nat
  flapping : Bool
deriving DecidableEq

/-- The `changes` accumulation loop of `updateFlapping`, after the write
and index advance: for `i = 1 .. l-1`, with current index
`c = (i + hIdx) % l` and previous index `p = c - 1` (wrapping to `l - 1`
below zero), a differing adjacent pair adds the current `weight`, and
`weight` increases by `step` every iteration. -/
def flapChanges (history : List Nat) (hIdx : Nat) : ℚ :=
  let l := history.length
  let weight := maxWeight / weightDiff
  let step := (maxWeight - weight) / ((l - 1 : Nat) : ℚ)
  (((List.range (l - 1)).foldl
    (fun acc j =>
      let i := j + 1
      let c := (i + hIdx) % l
      let p := if c = 0 then l - 1 else c - 1
      (if history.getD c 0 ≠ history.getD p 0 then acc.1 + acc.2 else acc.1,
        acc.2 + step))
    ((0 : ℚ), weight))).1

/-- `updateFlapping` from `alert.go`: write the level at the ring index,
advance the index modulo the history length, compute the weighted change
fraction `p`, and update the `flapping` flag against the two thresholds. -/
def updateFlapping (low high : ℚ) (st : FlapState) (level : Nat) : FlapState :=
  let history := st.history.set st.hIdx level
  let hIdx := (st.hIdx + 1) % history.length
  let p := flapChanges history hIdx / ((history.length - 1 : Nat) : ℚ)
  let flapping :=
    if st.flapping = true ∧ p < low then false
    else if st.flapping = false ∧ p > high then true
    else st.flapping
  ⟨history, hIdx, flapping⟩

/-- The score `p` computed by `updateFlapping` on the tick that appends
`level` (definitionally the `p` in `updateFlapping`'s body). -/
def flapScoreAfter (st : FlapState) (level : Nat) : ℚ :=
  let history := st.history.set st.hIdx level
  let hIdx := (st.hIdx + 1) % history.length
  flapChanges history hIdx / ((history.length - 1 : Nat) : ℚ)

/-- The newest (most recently written) level of the ring: the entry just
before the write index. -/
def newestLevel (st : FlapState) : Nat :=
  st.history.getD ((st.hIdx + st.history.length - 1) % st.history.length) 0

/-! Specification-side formulation of the flap walk, from the spec's
words: view the ring in chronological order (oldest first — after the
index advance, the slot at the ring index is the oldest), walk its
adjacent pairs from oldest to newest, pair `k` carrying weight
`weight0 + k * step`. -/

/-- The ring contents in chronological order, oldest first, when `hIdx` is
the slot holding the oldest entry. -/
def chronView (history : List Nat) (hIdx : Nat) : List Nat :=
  history.drop hIdx ++ history.take hIdx

/-- Spec walk of the flap score numerator: the ring's `H - 1` adjacent
pairs from oldest to newest; each pair with differing levels contributes
the current weight; the weight starts at `maxWeight / weightDiff` and
increases by `step = (maxWeight - weight0) / (H - 1)` after every pair. -/
def flapChangesSpec (history : List Nat) (hIdx : Nat) : ℚ :=
  let l := history.length
  let weight0 := maxWeight / weightDiff
  let step := (maxWeight - weight0) / ((l - 1 : Nat) : ℚ)
  let chron := chronView history hIdx
  ∑ k in Finset.range (l - 1),
    if chron.getD k 0 ≠ chron.getD (k + 1) 0 then weight0 + (k : ℚ) * step else 0

/-- The whole of `updateFlapping` as the claim words it: write at the ring
index, advance modulo `H`, score by the chronological weighted walk,
divide by `H - 1`, then clear the flag when flapping and `p < flap_low`,
set it when not flapping and `p > flap_high`, otherwise leave it. -/
def updateFlappingSpec (low high : ℚ) (st : FlapState) (level : Nat) : FlapState :=
  let history := st.history.set st.hIdx level
  let hIdx := (st.hIdx + 1) % history.length
  let p := flapChangesSpec history hIdx / ((history.length - 1 : Nat) : ℚ)
  let flapping :=
    if st.flapping = true ∧ p < low then false
    else if st.flapping = false ∧ p > high then true
    else st.flapping
  ⟨history, hIdx, flapping⟩

/-! ## Points, batches and alert dispatch (`alert.go`: `runAlert`)

`models.Fields`/tags become association lists; `influxql.Result` built by
`batchToResult` is a constant wrapper around the batch, so `AlertData`
carries the batch itself.  Handlers are opaque callables invoked in order;
we record the dispatch log as `(handler, AlertData)` pairs, one per
configured handler per dispatch. -/

abbrev Fields := List (String × Int)

abbrev Tags := List (String × String)

/-- `models.TimeFields`. -/
structure TimeFields where
  time : Nat
  fields : Fields
deriving DecidableEq

/-- `models.Batch`. -/
structure Batch where
  name : String
  group : String
  tags : Tags
  points : List TimeFields
deriving DecidableEq

/-- A point read from a stream edge. -/
structure Point where
  name : String
  group : String
  tags : Tags
  time : Nat
  fields : Fields
deriving DecidableEq

/-- `AlertData{Level, Data}` where `Data = a.batchToResult(batch)`. -/
structure AlertData where
  level : Nat
  data : Batch
deriving DecidableEq

/-- The alert-node configuration relevant to `runAlert`: the flap switch
and thresholds, the configured handlers (by identifier, in construction
order), and the compiled predicates, represented by their evaluation
outcome on each record (`EvalPredicate` is opaque to this embedding). -/
structure AlertConf where
  useFlapping : Bool
  flapLow : ℚ
  flapHigh : ℚ
  handlers : List Nat
  outcomes : Fields → Tags → LevelPreds

/-- The level of a record under a configuration. -/
def recLevel (conf : AlertConf) (fields : Fields) (tags : Tags) : Nat :=
  determineLevel (mkLevels (conf.outcomes fields tags))

/-- The single-point batch built in the stream arm of `runAlert`. -/
def pointBatch (p : Point) : Batch :=
  ⟨p.name, p.group, p.tags, [⟨p.time, p.fields⟩]⟩

/-- The body of the stream-edge loop of `runAlert` for one point:
determine the level; when flap detection is on, update the flap state with
it and drop the point while flapping; otherwise, when the level is above
`NoAlert`, build the single-point batch and invoke every handler once.
Returns the successor flap state and the dispatch log of the point. -/
def streamStep (conf : AlertConf) (st : FlapState) (p : Point) :
    FlapState × List (Nat × AlertData) :=
  let l := recLevel conf p.fields p.tags
  let st1 := if conf.useFlapping then updateFlapping conf.flapLow conf.flapHigh st l else st
  if conf.useFlapping ∧ st1.flapping then (st1, [])
  else if NoAlert < l then
    (st1, conf.handlers.map (fun h => (h, ⟨l, pointBatch p⟩)))
  else (st1, [])

/-- The stream arm of `runAlert`: fold `streamStep` over the points read
from the input edge, concatenating the dispatch logs. -/
def runAlertStream (conf : AlertConf) : FlapState → List Point →
    FlapState × List (Nat × AlertData)
  | st, [] => (st, [])
  | st, p :: rest =>
    let (st1, out) := streamStep conf st p
    let (st2, outs) := runAlertStream conf st1 rest
    (st2, out ++ outs)

/-- The inner point walk of the batch arm of `runAlert`: points are
examined in order; the first point whose level exceeds `NoAlert` sets
`triggered`, updates the flap state when flap detection is on (breaking
with no dispatch while flapping), dispatches the whole batch to every
handler and breaks.  Returns the flap state, the dispatch log, and the
`triggered` flag. -/
def batchLoop (conf : AlertConf) (b : Batch) :
    FlapState → List TimeFields → FlapState × List (Nat × AlertData) × Bool
  | st, [] => (st, [], false)
  | st, p :: rest =>
    let l := recLevel conf p.fields b.tags
    if NoAlert < l then
      if conf.useFlapping then
        let st1 := updateFlapping conf.flapLow conf.flapHigh st l
        if st1.flapping then (st1, [], true)
        else (st1, conf.handlers.map (fun h => (h, ⟨l, b⟩)), true)
      else (st, conf.handlers.map (fun h => (h, ⟨l, b⟩)), true)
    else batchLoop conf b st rest

/-- The batch arm of `runAlert` for one batch: run the point walk; when no
point triggered and flap detection is on, update the flap state once with
`NoAlert`. -/
def batchStep (conf : AlertConf) (st : FlapState) (b : Batch) :
    FlapState × List (Nat × AlertData) :=
  let r := batchLoop conf b st b.points
  if r.2.2 = false ∧ conf.useFlapping then
    (updateFlapping conf.flapLow conf.flapHigh r.1 NoAlert, r.2.1)
  else (r.1, r.2.1)

/-! ## Alert-node construction (`alert.go`: `newAlertNode`, flap part)

Predicate parsing happens before the flap block and concerns the `expr`
package; the claim under study is about the flap-configuration block,
which we model in isolation.  `pipeline.AlertNode.History` is an `int64`
set from the DSL. -/

def defaultFlapHistory : Int := 21

/-- The DSL-supplied fields of `pipeline.AlertNode` that drive the flap
block of `newAlertNode`. -/
structure PipelineAlertNode where
  useFlapping : Bool
  history : Int
  flapLow : ℚ
  flapHigh : ℚ

/-- The flap-configuration block of `newAlertNode`: when `UseFlapping`,
default a zero history to `defaultFlapHistory`, reject a history below 2,
allocate the ring, and reject `FlapLow > 1 || FlapHigh > 1`; returns the
ring length (as `some`) on success. -/
def newAlertNodeFlap (n : PipelineAlertNode) : Except String (Option Nat) :=
  if n.useFlapping then
    let history := if n.history = 0 then defaultFlapHistory else n.history
    if history < 2 then
      Except.error ("alert history count must be >= 2")
    else if 1 < n.flapLow ∨ 1 < n.flapHigh then
      Except.error ("alert flap thresholds are percentages and should be between 0 and 1")
    else Except.ok (some history.toNat)
  else Except.ok none

/-! ## Executing task start, snapshot and restore (`task.go`)

A runtime node is represented by its name and by what its `snapshot()`
method returns.  `TaskSnapshot.NodeSnapshots` is a Go map from node name
to bytes; we model it as an association list with overwriting insert (last
write wins, first occurrence authoritative for lookup). -/

abbrev Bytes := List Nat

deriving instance DecidableEq for Except

/-- A runtime node: its name, and the result of its `snapshot()` call. -/
structure RtNode where
  name : String
  snapData : Except String Bytes
deriving DecidableEq

/-- Go-map insert: overwrite the existing binding for the key, else append. -/
def mapInsert : List (String × Bytes) → String → Bytes → List (String × Bytes)
  | [], k, v => [(k, v)]
  | (k', v') :: rest, k, v =>
    if k' = k then (k, v) :: rest else (k', v') :: mapInsert rest k v

/-- The walk of `ExecutingTask.Snapshot`: call each node's `snapshot()` in
walk order, aborting on the first error, and collect the bytes under the
node's name. -/
def snapshotWalk (acc : List (String × Bytes)) :
    List RtNode → Except String (List (String × Bytes))
  | [] => Except.ok acc
  | n :: rest =>
    match n.snapData with
    | Except.error e => Except.error e
    | Except.ok d => snapshotWalk (mapInsert acc n.name d) rest

/-- `ExecutingTask.Snapshot`. -/
def ETSnapshot (nodes : List RtNode) : Except String (List (String × Bytes)) :=
  snapshotWalk [] nodes

/-- The validity walk of `ExecutingTask.start`: the snapshot is valid when
the name of every runtime node is present as a key of the node map (the
walk errors on the first missing name; `validSnapshot = err == nil`). -/
def snapshotValid (names : List String) (m : List (String × Bytes)) : Bool :=
  names.all (fun n => (m.lookup n).isSome)

/-- The starting walk of `ExecutingTask.start`: what each node's `start`
receives, in walk order — the bytes stored under its own name when a
valid snapshot was provided, and `nil` otherwise. -/
def startStates (names : List String) (snapshot : Option (List (String × Bytes))) :
    List (String × Option Bytes) :=
  match snapshot with
  | none => names.map (fun n => (n, none))
  | some m =>
    if snapshotValid names m then names.map (fun n => (n, m.lookup n))
    else names.map (fun n => (n, none))

/-- `ExecutingTask.start` (snapshot plumbing): the starting walk's
function always returns a nil error, so `start` returns the start states
without error. -/
def ETstart (names : List String) (snapshot : Option (List (String × Bytes))) :
    Except String (List (String × Option Bytes)) :=
  Except.ok (startStates names snapshot)

/-! ## DSL lexer

Modelled from the spec: the lexer source (`tick/lex.go`) is not among the
sources under study — only its test `tick/lex_test.go` is — so the token
kinds, the lexical rules of §4.1 (numbers, maximal-munch durations,
identifiers and reserved words, short and triple strings, references,
context-dependent regexes, `//` comments, whitespace) and the position
contract (byte offset of the first character; EOF at the source length)
are taken from the specification, cross-checked against the test's
expected token streams.  The source is a list of bytes; `µ` is the UTF-8
pair `194, 181`. -/

inductive TokKind where
  | tokEOF | tokNot | tokPlus | tokMinus | tokMult | tokDiv
  | tokAsgn | tokEqual | tokNotEqual | tokGreater | tokGreaterEqual
  | tokLess | tokLessEqual | tokRegexEqual | tokRegexNotEqual
  | tokLParen | tokRParen | tokDot
  | tokAnd | tokOr | tokTrue | tokFalse | tokVar
  | tokNumber | tokDuration | tokIdent | tokReference | tokString | tokRegex
deriving DecidableEq

/-- A token: kind, byte position of its first character, literal bytes
(empty for EOF). -/
structure Token where
  kind : TokKind
  pos : Nat
  lit : List Nat
deriving DecidableEq

/-- ASCII decimal digit. -/
def isDigit (b : Nat) : Bool := 48 ≤ b ∧ b ≤ 57

/-- Identifier start: ASCII letter or underscore. -/
def isIdentStart (b : Nat) : Bool :=
  (65 ≤ b ∧ b ≤ 90) ∨ (97 ≤ b ∧ b ≤ 122) ∨ b = 95

/-- Identifier continuation. -/
def isIdentChar (b : Nat) : Bool := isIdentStart b ∨ isDigit b

/-- Token-separating whitespace: space, tab, newline. -/
def isSpace (b : Nat) : Bool := b = 32 ∨ b = 9 ∨ b = 10

/-- Scan a quoted body after the opening quote `q`: a backslash escapes
the next byte; the body ends at the first unescaped `q`.  Returns the
number of bytes consumed including the closing quote, or `none` when
unterminated. -/
def scanQuoted (q : Nat) : List Nat → Option Nat
  | [] => none
  | 92 :: _ :: r => (scanQuoted q r).map (· + 2)
  | [92] => none
  | b :: r => if b = q then some 1 else (scanQuoted q r).map (· + 1)

/-- Scan a triple-quoted string body after the opening `'''`: terminates
at the first `'''` not preceded by a backslash. -/
def scanTriple : List Nat → Option Nat
  | [] => none
  | 92 :: _ :: r => (scanTriple r).map (· + 2)
  | [92] => none
  | 39 :: 39 :: 39 :: _ => some 3
  | _ :: r => (scanTriple r).map (· + 1)

/-- The duration unit following a number, by maximal munch: `ms` beats
`m`; units are `u`, `µ` (bytes 194 181), `ms`, `s`, `m`, `h`, `d`, `w`.
Returns the unit's byte length, 0 when the next bytes are no unit. -/
def unitLen : List Nat → Nat
  | 109 :: 115 :: _ => 2
  | 109 :: _ => 1
  | 194 :: 181 :: _ => 2
  | 117 :: _ => 1
  | 115 :: _ => 1
  | 104 :: _ => 1
  | 100 :: _ => 1
  | 119 :: _ => 1
  | _ => 0

/-- A number starting at the head of `rest` (whose head is a digit):
`[0-9]+ ('.' [0-9]+)?`, then a duration when a unit follows.  Returns the
kind and consumed length. -/
def numTok (rest : List Nat) : TokKind × Nat :=
  let d1 := (rest.takeWhile isDigit).length
  let frac :=
    match rest.drop d1 with
    | 46 :: r => let d2 := (r.takeWhile isDigit).length; if 0 < d2 then 1 + d2 else 0
    | _ => 0
  let numLen := d1 + frac
  let u := unitLen (rest.drop numLen)
  if 0 < u then (TokKind.tokDuration, numLen + u) else (TokKind.tokNumber, numLen)

/-- Reserved words lex to their own kinds; other identifier literals are
identifiers.  (`AND` `OR` `TRUE` `FALSE` `var` in ASCII bytes.) -/
def keywordKind (lit : List Nat) : TokKind :=
  if lit = [65, 78, 68] then TokKind.tokAnd
  else if lit = [79, 82] then TokKind.tokOr
  else if lit = [84, 82, 85, 69] then TokKind.tokTrue
  else if lit = [70, 65, 76, 83, 69] then TokKind.tokFalse
  else if lit = [118, 97, 114] then TokKind.tokVar
  else TokKind.tokIdent

/-- An identifier starting at the head of `rest`. -/
def identTok (rest : List Nat) : TokKind × Nat :=
  let lit := rest.takeWhile isIdentChar
  (keywordKind lit, lit.length)

/-- The next token at the head of `rest` (nonempty, not whitespace, not a
comment): kind and consumed byte count.  `regexOk` tells whether the
previous non-whitespace token was `=`, `=~` or `!~`, in which context a
`/` opens a regex instead of the division operator.  `none` is a lexical
error. -/
def nextTok (regexOk : Bool) (rest : List Nat) : Option (TokKind × Nat) :=
  match rest with
  | [] => none
  | 33 :: 61 :: _ => some (TokKind.tokNotEqual, 2)
  | 33 :: 126 :: _ => some (TokKind.tokRegexNotEqual, 2)
  | 33 :: _ => some (TokKind.tokNot, 1)
  | 61 :: 61 :: _ => some (TokKind.tokEqual, 2)
  | 61 :: 126 :: _ => some (TokKind.tokRegexEqual, 2)
  | 61 :: _ => some (TokKind.tokAsgn, 1)
  | 62 :: 61 :: _ => some (TokKind.tokGreaterEqual, 2)
  | 62 :: _ => some (TokKind.tokGreater, 1)
  | 60 :: 61 :: _ => some (TokKind.tokLessEqual, 2)
  | 60 :: _ => some (TokKind.tokLess, 1)
  | 43 :: _ => some (TokKind.tokPlus, 1)
  | 45 :: _ => some (TokKind.tokMinus, 1)
  | 42 :: _ => some (TokKind.tokMult, 1)
  | 47 :: r =>
    if regexOk then (scanQuoted 47 r).map (fun n => (TokKind.tokRegex, 1 + n))
    else some (TokKind.tokDiv, 1)
  | 40 :: _ => some (TokKind.tokLParen, 1)
  | 41 :: _ => some (TokKind.tokRParen, 1)
  | 46 :: _ => some (TokKind.tokDot, 1)
  | 34 :: r => (scanQuoted 34 r).map (fun n => (TokKind.tokReference, 1 + n))
  | 39 :: 39 :: 39 :: r => (scanTriple r).map (fun n => (TokKind.tokString, 3 + n))
  | 39 :: r => (scanQuoted 39 r).map (fun n => (TokKind.tokString, 1 + n))
  | b :: _ =>
    if isDigit b then some (numTok rest)
    else if isIdentStart b then some (identTok rest)
    else none

/-- Whether a token kind puts the lexer in regex context for the next
token. -/
def regexNext (k : TokKind) : Bool :=
  k = TokKind.tokAsgn ∨ k = TokKind.tokRegexEqual ∨ k = TokKind.tokRegexNotEqual

/-- Byte length of a `//` line comment at the head of `rest`: through the
next newline inclusive, or to the end of the source. -/
def commentLen (rest : List Nat) : Nat :=
  let body := (rest.drop 2).takeWhile (fun b => b ≠ 10)
  2 + body.length + (if body.length < (rest.drop 2).length then 1 else 0)

/-- The lexer loop: skip whitespace, skip line comments (outside regex
context), emit the next token at the current byte position, and emit EOF
at the end of the source.  `fuel` bounds the recursion; every step
consumes at least one byte, so `src.length + 1` fuel always suffices. -/
def runLex : Nat → List Nat → Nat → Bool → Option (List Token)
  | 0, _, _, _ => none
  | _ + 1, [], pos, _ => some [⟨TokKind.tokEOF, pos, []⟩]
  | fuel + 1, b :: r, pos, regexOk =>
    if isSpace b then runLex fuel r (pos + 1) regexOk
    else if regexOk = false ∧ b = 47 ∧ r.head? = some 47 then
      let k := commentLen (b :: r)
      if _h : 0 < k ∧ k ≤ (b :: r).length then
        runLex fuel ((b :: r).drop k) (pos + k) regexOk
      else none
    else
      match nextTok regexOk (b :: r) with
      | none => none
      | some (kind, n) =>
        if _h : 0 < n ∧ n ≤ (b :: r).length then
          (runLex fuel ((b :: r).drop n) (pos + n) (regexNext kind)).map
            (fun ts => ⟨kind, pos, (b :: r).take n⟩ :: ts)
        else none

/-- Lex a whole source: start at position 0, outside regex context, with
enough fuel for every byte. -/
def lexAll (src : List Nat) : Option (List Token) :=
  runLex (src.length + 1) src 0 false

/-- ASCII source text as bytes (helper for concrete inputs). -/
def strBytes (s : String) : List Nat := s.data.map Char.toNat

/-- Whether a construction result is an error. -/
def isErr : Except String (Option Nat) → Bool
  | Except.error _ => true
  | Except.ok _ => false

/-- The bytes a node's `snapshot()` produced (meaningful when it did not
error). -/
def snapBytes (n : RtNode) : Bytes :=
  match n.snapData with
  | Except.ok d => d
  | Except.error _ => []

/-! # Theorems -/

/-! ## C1/C7: level classification -/

/-- C1.  `determineLevel` evaluates the configured predicates in ascending
severity order, skipping unconfigured levels; each predicate that returns
true updates the accumulated level to its severity; the first predicate
that raises an evaluation error stops classification with the accumulated
level (no higher level is consulted); the first predicate that returns
false (without error) likewise stops with the accumulated level.  Stated
as: `determineLevel` agrees with the specification walk `specWalk` over
the configured predicates for every outcome of the three predicates. -/
theorem determineLevel_eq_specWalk (lp : LevelPreds) :
    determineLevel (mkLevels lp) = specWalk (configuredLevels (mkLevels lp)) NoAlert := by
  revert lp; decide

/-- C7 counterexample.  With the Info predicate configured and false and
the Crit predicate configured and true, `determineLevel` returns `NoAlert`
while the highest level whose predicate evaluates to true is `CritAlert`:
the claim that the returned level is the highest passing level even when a
lower configured predicate is false fails on this input. -/
theorem determineLevel_not_highestPassing :
    determineLevel (mkLevels ⟨some PredOutcome.failed, none, some PredOutcome.passed⟩)
        = NoAlert
      ∧ highestPassingLevel (mkLevels ⟨some PredOutcome.failed, none, some PredOutcome.passed⟩)
        = CritAlert
      ∧ NoAlert ≠ CritAlert := by
  decide

/-- C7 (amended).  The level returned by `determineLevel` is the highest
severity whose configured predicate evaluates to true *and* below which
every configured predicate also evaluates to true (`NoAlert` when there is
none); in particular, when a configured lower-severity predicate is false,
evaluation stops there regardless of higher predicates. -/
theorem determineLevel_eq_highestPrefixPassing (lp : LevelPreds) :
    determineLevel (mkLevels lp) = highestPrefixPassing (mkLevels lp) := by
  revert lp; decide

/-! ## C2/C8: flap detection -/

/-- The `changes`/`weight` accumulator fold as a weighted indexed sum. -/
theorem foldl_weight_sum (P : Nat → Prop) [DecidablePred P] (s c0 w0 : ℚ) :
    ∀ n : Nat,
      (List.range n).foldl
          (fun acc j => (if P j then acc.1 + acc.2 else acc.1, acc.2 + s)) (c0, w0)
        = (c0 + ∑ j in Finset.range n, (if P j then w0 + (j : ℚ) * s else 0),
            w0 + (n : ℚ) * s) := by
  intro n
  induction n with
  | zero => simp
  | succ n ih =>
    rw [List.range_succ, List.foldl_append, ih, Finset.sum_range_succ]
    simp only [List.foldl_cons, List.foldl_nil]
    refine Prod.ext ?_ ?_
    · simp only
      split <;> ring
    · simp only
      push_cast
      ring

/-- The Go wrap-around previous index: for `m < l`, the predecessor of
`(m + 1) % l` (wrapping to `l - 1` at zero) is `m`. -/
theorem wrapPred_eq (l m : Nat) (hm : m < l) :
    (if (m + 1) % l = 0 then l - 1 else (m + 1) % l - 1) = m := by
  rcases Nat.lt_or_ge (m + 1) l with h | h
  · rw [Nat.mod_eq_of_lt h]
    simp
  · have hml : m + 1 = l := by omega
    rw [hml, Nat.mod_self]
    simp
    omega

/-- Shifting inside the ring by `1 ≤ o ≤ l - 1` never lands back on `i`. -/
theorem mod_shift_ne (l i o : Nat) (hi : i < l) (ho1 : 1 ≤ o) (ho2 : o ≤ l - 1) :
    (i + o) % l ≠ i := by
  rcases Nat.lt_or_ge (i + o) l with h | h
  · rw [Nat.mod_eq_of_lt h]
    omega
  · rw [Nat.mod_eq_sub_mod h, Nat.mod_eq_of_lt (by omega)]
    omega

/-- Indexing the chronological view of the ring: entry `k` is the ring
slot `(i + k) % l`. -/
theorem chronView_getD (hist : List Nat) (i k : Nat)
    (hi : i < hist.length) (hk : k < hist.length) :
    (chronView hist i).getD k 0 = hist.getD ((i + k) % hist.length) 0 := by
  unfold chronView
  rw [List.getD_eq_getElem?_getD, List.getElem?_append, List.length_drop]
  rcases Nat.lt_or_ge k (hist.length - i) with h | h
  · rw [if_pos h, List.getElem?_drop, ← List.getD_eq_getElem?_getD,
      Nat.mod_eq_of_lt (by omega)]
  · rw [if_neg (by omega), List.getElem?_take, if_pos (by omega),
      ← List.getD_eq_getElem?_getD]
    have h1 : (i + k) % hist.length = i + k - hist.length := by
      rw [Nat.mod_eq_sub_mod (by omega)]
      exact Nat.mod_eq_of_lt (by omega)
    rw [h1]
    congr 1
    omega

/-- `getD` after `set` at a different index. -/
theorem getD_set_ne (hist : List Nat) (i m v d : Nat) (hne : i ≠ m) :
    (hist.set i v).getD m d = hist.getD m d := by
  rw [List.getD_eq_getElem?_getD, List.getElem?_set_ne hne, ← List.getD_eq_getElem?_getD]

/-- `getD` after `set` at the written index. -/
theorem getD_set_self (hist : List Nat) (i v d : Nat) (hi : i < hist.length) :
    (hist.set i v).getD i d = v := by
  rw [List.getD_eq_getElem?_getD, List.getElem?_set_self hi]
  rfl

/-- The ring-indexed `changes` loop of `updateFlapping` computes exactly
the chronological weighted pair walk of the specification. -/
theorem flapChanges_eq_spec (hist : List Nat) (hIdx : Nat)
    (h2 : 2 ≤ hist.length) (hi : hIdx < hist.length) :
    flapChanges hist hIdx = flapChangesSpec hist hIdx := by
  simp only [flapChanges, flapChangesSpec]
  rw [foldl_weight_sum]
  simp only [zero_add]
  refine Finset.sum_congr rfl ?_
  intro j hj
  rw [Finset.mem_range] at hj
  have hm : (hIdx + j) % hist.length < hist.length := Nat.mod_lt _ (by omega)
  have hc : (j + 1 + hIdx) % hist.length = ((hIdx + j) % hist.length + 1) % hist.length := by
    have e1 : j + 1 + hIdx = hIdx + j + 1 := by omega
    rw [e1, Nat.add_mod (hIdx + j) 1, Nat.mod_eq_of_lt (show 1 < hist.length by omega)]
  rw [hc, wrapPred_eq _ _ hm,
    chronView_getD hist hIdx j hi (by omega),
    chronView_getD hist hIdx (j + 1) hi (by omega)]
  have hc2 : (hIdx + (j + 1)) % hist.length = ((hIdx + j) % hist.length + 1) % hist.length := by
    have e1 : hIdx + (j + 1) = hIdx + j + 1 := by omega
    rw [e1, Nat.add_mod (hIdx + j) 1, Nat.mod_eq_of_lt (show 1 < hist.length by omega)]
  rw [hc2]
  exact if_congr ne_comm rfl rfl

/-- C2.  `updateFlapping` agrees with its specification: the level is
written at the ring index and the index advances modulo `H`; `changes` is
the chronological weighted pair walk with `weight0 = maxWeight/weightDiff`
and `step = (maxWeight - weight0)/(H - 1)`; `p = changes/(H - 1)`; and the
flag clears when flapping with `p < flap_low`, sets when not flapping with
`p > flap_high`, and is unchanged otherwise. -/
theorem updateFlapping_eq_spec (low high : ℚ) (st : FlapState) (level : Nat)
    (h2 : 2 ≤ st.history.length) (_hi : st.hIdx < st.history.length) :
    updateFlapping low high st level = updateFlappingSpec low high st level := by
  simp only [updateFlapping, updateFlappingSpec]
  rw [flapChanges_eq_spec]
  · rw [List.length_set]
    exact h2
  · exact Nat.mod_lt _ (by rw [List.length_set]; omega)

/-- C2 witness: a concrete four-slot ring at index 1. -/
theorem updateFlapping_eq_spec_witness :
    2 ≤ (FlapState.mk [0, 3, 0, 3] 1 false).history.length
      ∧ (FlapState.mk [0, 3, 0, 3] 1 false).hIdx
          < (FlapState.mk [0, 3, 0, 3] 1 false).history.length
      ∧ updateFlapping (1/4) (1/2) (FlapState.mk [0, 3, 0, 3] 1 false) 3
          = updateFlappingSpec (1/4) (1/2) (FlapState.mk [0, 3, 0, 3] 1 false) 3 :=
  ⟨by decide, by decide,
    updateFlapping_eq_spec (1/4) (1/2) (FlapState.mk [0, 3, 0, 3] 1 false) 3
      (by decide) (by decide)⟩

/-- After writing `v` at slot `i` and advancing, the chronological pair
walk splits into a part that does not depend on `v` (the first `H - 2`
pairs, all between untouched slots) plus the last pair, which compares the
previous newest entry with `v`. -/
theorem flapChangesSpec_set (hist : List Nat) (i v : Nat)
    (h2 : 2 ≤ hist.length) (hi : i < hist.length) :
    flapChangesSpec (hist.set i v) ((i + 1) % hist.length)
      = (∑ k in Finset.range (hist.length - 2),
          if hist.getD ((i + 1 + k) % hist.length) 0
              ≠ hist.getD ((i + 1 + (k + 1)) % hist.length) 0
            then maxWeight / weightDiff
              + (k : ℚ) * ((maxWeight - maxWeight / weightDiff)
                  / ((hist.length - 1 : Nat) : ℚ))
            else 0)
        + (if hist.getD ((i + hist.length - 1) % hist.length) 0 ≠ v
            then maxWeight / weightDiff
              + ((hist.length - 2 : Nat) : ℚ) * ((maxWeight - maxWeight / weightDiff)
                  / ((hist.length - 1 : Nat) : ℚ))
            else 0) := by
  have hlen : (hist.set i v).length = hist.length := List.length_set hist i v
  have hidx : (i + 1) % hist.length < hist.length := Nat.mod_lt _ (by omega)
  simp only [flapChangesSpec, hlen]
  have hchron : ∀ k, k < hist.length →
      (chronView (hist.set i v) ((i + 1) % hist.length)).getD k 0
        = (hist.set i v).getD ((i + 1 + k) % hist.length) 0 := by
    intro k hk
    rw [chronView_getD (hist.set i v) _ k (by rw [hlen]; exact hidx) (by rw [hlen]; exact hk),
      hlen, Nat.mod_add_mod]
  have hsplit : hist.length - 1 = (hist.length - 2) + 1 := by omega
  rw [hsplit, Finset.sum_range_succ]
  congr 1
  · refine Finset.sum_congr rfl ?_
    intro k hk
    rw [Finset.mem_range] at hk
    rw [hchron k (by omega), hchron (k + 1) (by omega)]
    have n1 : (i + 1 + k) % hist.length ≠ i := by
      have e : i + 1 + k = i + (1 + k) := by omega
      rw [e]
      exact mod_shift_ne _ _ _ hi (by omega) (by omega)
    have n2 : (i + 1 + (k + 1)) % hist.length ≠ i := by
      have e : i + 1 + (k + 1) = i + (1 + (k + 1)) := by omega
      rw [e]
      exact mod_shift_ne _ _ _ hi (by omega) (by omega)
    rw [getD_set_ne hist i _ v 0 (Ne.symm n1), getD_set_ne hist i _ v 0 (Ne.symm n2)]
  · rw [hchron (hist.length - 2) (by omega), hchron (hist.length - 2 + 1) (by omega)]
    have e1 : i + 1 + (hist.length - 2) = i + (hist.length - 1) := by omega
    have e2 : i + 1 + (hist.length - 2 + 1) = i + hist.length := by omega
    have e3 : (i + hist.length) % hist.length = i := by
      rw [Nat.add_mod_right]
      exact Nat.mod_eq_of_lt hi
    have n1 : (i + (hist.length - 1)) % hist.length ≠ i :=
      mod_shift_ne _ _ _ hi (by omega) (by omega)
    rw [e1, e2, e3, getD_set_self hist i v 0 hi,
      getD_set_ne hist i _ v 0 (Ne.symm n1)]
    have e5 : i + (hist.length - 1) = i + hist.length - 1 := by omega
    rw [e5]

/-- C8.  Flap score monotonicity: with fixed prior ring contents, the
score `p` computed by `updateFlapping` on a tick appending a level that
differs from the current newest level is at least the score computed on
the same tick appending the newest level itself. -/
theorem flapScore_append_mono (st : FlapState) (x : Nat)
    (h2 : 2 ≤ st.history.length) (hi : st.hIdx < st.history.length)
    (hx : x ≠ newestLevel st) :
    flapScoreAfter st (newestLevel st) ≤ flapScoreAfter st x := by
  simp only [flapScoreAfter, List.length_set]
  have hidx : ∀ v : Nat,
      (st.hIdx + 1) % (st.history.set st.hIdx v).length < (st.history.set st.hIdx v).length := by
    intro v
    rw [List.length_set]
    exact Nat.mod_lt _ (by omega)
  rw [flapChanges_eq_spec _ _ (by rw [List.length_set]; exact h2) (by
      have := hidx (newestLevel st)
      rwa [List.length_set] at this ⊢),
    flapChanges_eq_spec _ _ (by rw [List.length_set]; exact h2) (by
      have := hidx x
      rwa [List.length_set] at this ⊢)]
  rw [flapChangesSpec_set st.history st.hIdx (newestLevel st) h2 hi,
    flapChangesSpec_set st.history st.hIdx x h2 hi]
  have hy : newestLevel st
      = st.history.getD ((st.hIdx + st.history.length - 1) % st.history.length) 0 := rfl
  rw [if_neg (by rw [← hy]; exact fun h => h rfl),
    if_pos (by rw [← hy]; exact Ne.symm hx)]
  have hw : (0 : ℚ) ≤ maxWeight / weightDiff
      + ((st.history.length - 2 : Nat) : ℚ) * ((maxWeight - maxWeight / weightDiff)
          / ((st.history.length - 1 : Nat) : ℚ)) := by
    have c1 : (0 : ℚ) ≤ maxWeight / weightDiff := by norm_num [maxWeight, weightDiff]
    have c2 : (0 : ℚ) ≤ maxWeight - maxWeight / weightDiff := by
      norm_num [maxWeight, weightDiff]
    positivity
  have hden : (0 : ℚ) < ((st.history.length - 1 : Nat) : ℚ) := by
    have : (1 : ℕ) ≤ st.history.length - 1 := by omega
    exact_mod_cast Nat.lt_of_lt_of_le Nat.zero_lt_one this
  gcongr

/-- C8 witness: ring `[0, 3, 0, 3]` at index 1, whose newest entry is
level 0; appending level 3 instead of 0. -/
theorem flapScore_append_mono_witness :
    2 ≤ (FlapState.mk [0, 3, 0, 3] 1 false).history.length
      ∧ (FlapState.mk [0, 3, 0, 3] 1 false).hIdx
          < (FlapState.mk [0, 3, 0, 3] 1 false).history.length
      ∧ 3 ≠ newestLevel (FlapState.mk [0, 3, 0, 3] 1 false)
      ∧ flapScoreAfter (FlapState.mk [0, 3, 0, 3] 1 false)
            (newestLevel (FlapState.mk [0, 3, 0, 3] 1 false))
          ≤ flapScoreAfter (FlapState.mk [0, 3, 0, 3] 1 false) 3 :=
  ⟨by decide, by decide, by decide,
    flapScore_append_mono (FlapState.mk [0, 3, 0, 3] 1 false) 3
      (by decide) (by decide) (by decide)⟩

/-! ## C3/C4: stream- and batch-mode alert dispatch -/

/-- Every level `determineLevel` can return serializes to one of the three
alert strings, or is `NoAlert`. -/
theorem determineLevel_string (lp : LevelPreds) :
    determineLevel (mkLevels lp) = NoAlert
      ∨ levelString (determineLevel (mkLevels lp)) = some ("INFO")
      ∨ levelString (determineLevel (mkLevels lp)) = some ("WARNING")
      ∨ levelString (determineLevel (mkLevels lp)) = some ("CRITICAL") := by
  revert lp; decide

/-- C3.  Stream mode, per point: the level is computed first; when flap
detection is enabled the flap state is updated with it; a flapping node
drops the point with no dispatch; otherwise exactly when the level exceeds
`NoAlert` a batch holding just this point (name, group, tags, time,
fields) is built and every configured handler is invoked once with that
level and batch; consequently every dispatched level exceeds `NoAlert` and
serializes to INFO, WARNING or CRITICAL. -/
theorem alert_stream_step (conf : AlertConf) (st : FlapState) (p : Point) :
    (streamStep conf st p
      = (let l := recLevel conf p.fields p.tags
         let st1 := if conf.useFlapping = true
           then updateFlapping conf.flapLow conf.flapHigh st l else st
         if conf.useFlapping = true ∧ st1.flapping = true then (st1, [])
         else if NoAlert < l then
           (st1, conf.handlers.map (fun h =>
             (h, AlertData.mk l (Batch.mk p.name p.group p.tags [TimeFields.mk p.time p.fields]))))
         else (st1, [])))
    ∧ ∀ pr ∈ (streamStep conf st p).2,
        NoAlert < pr.2.level
          ∧ (levelString pr.2.level = some ("INFO")
              ∨ levelString pr.2.level = some ("WARNING")
              ∨ levelString pr.2.level = some ("CRITICAL")) := by
  constructor
  · rfl
  · intro pr hpr
    simp only [streamStep] at hpr
    generalize (if conf.useFlapping = true then
        updateFlapping conf.flapLow conf.flapHigh st (recLevel conf p.fields p.tags)
      else st) = st1 at hpr
    split at hpr
    · simp at hpr
    · split at hpr
      · next hB =>
        simp only at hpr
        rw [List.mem_map] at hpr
        obtain ⟨h, _, rfl⟩ := hpr
        refine ⟨hB, ?_⟩
        rcases determineLevel_string (conf.outcomes p.fields p.tags) with h0 | hs
        · simp only [recLevel] at hB
          simp only [NoAlert] at h0 hB
          omega
        · exact hs
      · simp at hpr

/-- The inner point walk of the batch arm is determined by the first point
whose level exceeds `NoAlert`. -/
theorem batchLoop_find (conf : AlertConf) (b : Batch) (st : FlapState) :
    ∀ pts : List TimeFields,
      batchLoop conf b st pts
        = match pts.find? (fun q => decide (NoAlert < recLevel conf q.fields b.tags)) with
          | none => (st, [], false)
          | some p =>
            let l := recLevel conf p.fields b.tags
            if conf.useFlapping = true then
              let st1 := updateFlapping conf.flapLow conf.flapHigh st l
              if st1.flapping = true then (st1, [], true)
              else (st1, conf.handlers.map (fun h => (h, AlertData.mk l b)), true)
            else (st, conf.handlers.map (fun h => (h, AlertData.mk l b)), true) := by
  intro pts
  induction pts with
  | nil => simp [batchLoop]
  | cons p rest ih =>
    by_cases hl : NoAlert < recLevel conf p.fields b.tags
    · simp only [batchLoop]
      rw [List.find?_cons_of_pos _ (by simpa using hl), if_pos hl]
    · simp only [batchLoop]
      rw [List.find?_cons_of_neg _ (by simpa using hl), if_neg hl]
      exact ih

/-- C4.  Batch mode, per batch: points are walked in order; the first
point whose level exceeds `NoAlert` ends the walk and dispatches the
entire batch to every handler at that point's level; with flap detection
enabled the flap state is updated only with that first triggering level
(and nothing is dispatched when the node is then flapping); when no point
triggers, the flap state is updated once with `NoAlert`. -/
theorem alert_batch_dispatch (conf : AlertConf) (st : FlapState) (b : Batch) :
    batchStep conf st b
      = match b.points.find? (fun q => decide (NoAlert < recLevel conf q.fields b.tags)) with
        | none =>
          ((if conf.useFlapping = true
            then updateFlapping conf.flapLow conf.flapHigh st NoAlert else st), [])
        | some p =>
          let l := recLevel conf p.fields b.tags
          if conf.useFlapping = true then
            let st1 := updateFlapping conf.flapLow conf.flapHigh st l
            if st1.flapping = true then (st1, [])
            else (st1, conf.handlers.map (fun h => (h, AlertData.mk l b)))
          else (st, conf.handlers.map (fun h => (h, AlertData.mk l b))) := by
  simp only [batchStep, batchLoop_find conf b st b.points]
  cases hf : b.points.find? (fun q => decide (NoAlert < recLevel conf q.fields b.tags)) with
  | none =>
    cases huf : conf.useFlapping <;> simp
  | some p =>
    cases huf : conf.useFlapping with
    | false => simp
    | true =>
      by_cases hfl :
          (updateFlapping conf.flapLow conf.flapHigh st (recLevel conf p.fields b.tags)).flapping
            = true
      · simp [hfl]
      · simp [hfl]

/-! ## C6: alert-node flap configuration -/

/-- C6 counterexample.  A negative `flap_low` (here `-1/2`, outside
`[0, 1]`) is accepted by `newAlertNode`: with `UseFlapping`, unset
history and `flap_high = 1/2`, construction succeeds with the default ring
length 21, although the claim requires it to fail. -/
theorem newAlertNodeFlap_accepts_negative :
    newAlertNodeFlap (PipelineAlertNode.mk true 0 (-(1/2)) (1/2)) = Except.ok (some 21)
      ∧ (-(1/2) : ℚ) < 0 := by
  constructor
  · simp only [newAlertNodeFlap]
    rw [if_pos trivial, if_pos trivial, if_neg (by decide), if_neg (by norm_num)]
    rfl
  · norm_num

/-- C6 (amended).  With flap detection enabled, construction fails exactly
when the effective history (the default 21 when unset) is below 2 or when
`flap_low` or `flap_high` exceeds 1 — values below 0 are accepted; with
history unset and thresholds at most 1, construction succeeds with the
default ring length 21. -/
theorem newAlertNodeFlap_spec (n : PipelineAlertNode) (hu : n.useFlapping = true) :
    (isErr (newAlertNodeFlap n) = true
        ↔ ((if n.history = 0 then defaultFlapHistory else n.history) < 2
            ∨ 1 < n.flapLow ∨ 1 < n.flapHigh))
      ∧ (n.history = 0 → ¬(1 < n.flapLow) → ¬(1 < n.flapHigh) →
          newAlertNodeFlap n = Except.ok (some 21)) := by
  constructor
  · simp only [newAlertNodeFlap]
    rw [if_pos hu]
    by_cases h2 : (if n.history = 0 then defaultFlapHistory else n.history) < 2
    · rw [if_pos h2]
      simp [isErr, h2]
    · rw [if_neg h2]
      by_cases ht : 1 < n.flapLow ∨ 1 < n.flapHigh
      · rw [if_pos ht]
        simp [isErr, h2, ht]
      · rw [if_neg ht]
        simp [isErr, h2, ht]
  · intro h0 hl hh
    simp only [newAlertNodeFlap]
    rw [if_pos hu, if_pos h0, if_neg (by norm_num [defaultFlapHistory]),
      if_neg (not_or.mpr ⟨hl, hh⟩)]
    rfl

/-- C6 witness: flap detection on, history unset, thresholds `1/2`. -/
theorem newAlertNodeFlap_spec_witness :
    (PipelineAlertNode.mk true 0 (1/2) (1/2)).useFlapping = true
      ∧ ((isErr (newAlertNodeFlap (PipelineAlertNode.mk true 0 (1/2) (1/2))) = true
          ↔ ((if (PipelineAlertNode.mk true 0 (1/2) (1/2)).history = 0
                then defaultFlapHistory else (PipelineAlertNode.mk true 0 (1/2) (1/2)).history) < 2
              ∨ 1 < (PipelineAlertNode.mk true 0 (1/2) (1/2)).flapLow
              ∨ 1 < (PipelineAlertNode.mk true 0 (1/2) (1/2)).flapHigh))
        ∧ ((PipelineAlertNode.mk true 0 (1/2) (1/2)).history = 0
            → ¬(1 < (PipelineAlertNode.mk true 0 (1/2) (1/2)).flapLow)
            → ¬(1 < (PipelineAlertNode.mk true 0 (1/2) (1/2)).flapHigh)
            → newAlertNodeFlap (PipelineAlertNode.mk true 0 (1/2) (1/2))
                = Except.ok (some 21))) :=
  ⟨rfl, newAlertNodeFlap_spec (PipelineAlertNode.mk true 0 (1/2) (1/2)) rfl⟩

/-! ## C5/C10: executing-task start, snapshot and restore -/

/-- A lookup succeeds exactly when the key occurs among the map's keys. -/
theorem lookup_isSome_eq_contains (m : List (String × Bytes)) (k : String) :
    (m.lookup k).isSome = (m.map Prod.fst).contains k := by
  induction m with
  | nil => rfl
  | cons a rest ih =>
    obtain ⟨k', v'⟩ := a
    by_cases h : k = k'
    · simp [List.lookup, h]
    · have hb : (k == k') = false := beq_eq_false_iff_ne.mpr h
      simp [List.lookup, hb, h, ih]

/-- C5 counterexample.  A snapshot with an extra key `"b"` absent from the
single-node pipeline `["a"]` — a mismatch between key set and node-name
set — is still judged valid and used: node `"a"` receives its bytes
rather than nil, although the claim requires any mismatch to invalidate
the snapshot and force a nil start. -/
theorem start_uses_superset_snapshot :
    startStates ["a"] (some [("a", [1]), ("b", [2])]) = [("a", some [1])]
      ∧ ("b", ([2] : Bytes)) ∈ [("a", ([1] : Bytes)), ("b", [2])]
      ∧ "b" ∉ ["a"]
      ∧ [("a", some ([1] : Bytes))] ≠ ["a"].map (fun n => (n, (none : Option Bytes))) := by
  refine ⟨by decide, by decide, by decide, by decide⟩

/-- C5 (amended).  The snapshot is used if and only if every runtime
node's name is present as a key of the node map — missing names
invalidate it, while extra keys in the snapshot are ignored and do not;
when invalid, every node starts with nil state; and `start` returns
without error either way. -/
theorem start_snapshot_spec (names : List String) (m : List (String × Bytes))
    (snap : Option (List (String × Bytes))) :
    snapshotValid names m = names.all (fun n => (m.map Prod.fst).contains n)
      ∧ startStates names (some m)
          = (if snapshotValid names m = true then names.map (fun n => (n, m.lookup n))
             else names.map (fun n => (n, none)))
      ∧ ETstart names snap = Except.ok (startStates names snap) := by
  refine ⟨?_, rfl, rfl⟩
  exact congrArg names.all (funext fun n => lookup_isSome_eq_contains m n)

/-- Inserting a fresh key into the Go map model appends it. -/
theorem mapInsert_notMem (m : List (String × Bytes)) (k : String) (v : Bytes)
    (hk : k ∉ m.map Prod.fst) : mapInsert m k v = m ++ [(k, v)] := by
  induction m with
  | nil => rfl
  | cons a rest ih =>
    obtain ⟨k', v'⟩ := a
    simp only [List.map_cons, List.mem_cons, not_or] at hk
    simp only [mapInsert]
    rw [if_neg (fun h => hk.1 h.symm), ih hk.2]
    rfl

/-- The snapshot walk over nodes with pairwise-distinct names appends one
entry per node, in walk order, keyed by the node's name. -/
theorem snapshotWalk_ok (nodes : List RtNode) :
    ∀ (acc : List (String × Bytes)) (snap : List (String × Bytes)),
      (acc.map Prod.fst ++ nodes.map RtNode.name).Nodup →
      snapshotWalk acc nodes = Except.ok snap →
      snap = acc ++ nodes.map (fun n => (n.name, snapBytes n)) := by
  induction nodes with
  | nil =>
    intro acc snap _ h
    simp only [snapshotWalk, Except.ok.injEq] at h
    simp [← h]
  | cons n rest ih =>
    intro acc snap hnd h
    simp only [snapshotWalk] at h
    cases hs : n.snapData with
    | error e =>
      rw [hs] at h
      cases (h : (Except.error e : Except String (List (String × Bytes))) = Except.ok snap)
    | ok d =>
      rw [hs] at h
      have h2 : snapshotWalk (mapInsert acc n.name d) rest = Except.ok snap := h
      have hnotin : n.name ∉ acc.map Prod.fst := by
        intro hmem
        rw [List.nodup_append] at hnd
        exact hnd.2.2 hmem (List.mem_cons_self _ _)
      rw [mapInsert_notMem acc n.name d hnotin] at h2
      have hnd' : ((acc ++ [(n.name, d)]).map Prod.fst ++ rest.map RtNode.name).Nodup := by
        simp only [List.map_append, List.map_cons, List.map_nil, List.append_assoc,
          List.singleton_append]
        simpa using hnd
      rw [ih (acc ++ [(n.name, d)]) snap hnd' h2]
      simp [snapBytes, hs]

/-- Looking a node's name up in the per-node association built over nodes
with pairwise-distinct names finds that node's own entry. -/
theorem lookup_map_name (f : RtNode → Bytes) :
    ∀ (l : List RtNode), (l.map RtNode.name).Nodup →
      ∀ n ∈ l, (l.map (fun x => (x.name, f x))).lookup n.name = some (f n) := by
  intro l
  induction l with
  | nil => intro _ n hn; simp at hn
  | cons a rest ih =>
    intro hnd n hn
    simp only [List.map_cons, List.nodup_cons] at hnd
    rcases List.mem_cons.mp hn with rfl | hn'
    · simp [List.lookup]
    · have hne : n.name ≠ a.name := by
        intro he
        have hm : a.name ∈ rest.map RtNode.name := by
          rw [← he]
          exact List.mem_map_of_mem _ hn'
        exact hnd.1 hm
      have hb : (n.name == a.name) = false := beq_eq_false_iff_ne.mpr hne
      simp only [List.map_cons, List.lookup, hb]
      exact ih hnd.2 n hn'

/-- C10.  When `Snapshot()` succeeds on a task whose node names are
pairwise distinct, the snapshot holds exactly one entry per node, in walk
order, keyed by the node's name; consequently the validity walk of
`start` accepts it, and every node's `start` receives the bytes stored
under its own name rather than nil. -/
theorem snapshot_restore_roundtrip (nodes : List RtNode) (snap : List (String × Bytes))
    (hnd : (nodes.map RtNode.name).Nodup)
    (hok : ETSnapshot nodes = Except.ok snap) :
    snap = nodes.map (fun n => (n.name, snapBytes n))
      ∧ snapshotValid (nodes.map RtNode.name) snap = true
      ∧ startStates (nodes.map RtNode.name) (some snap)
          = nodes.map (fun n => (n.name, some (snapBytes n))) := by
  have hsnap : snap = nodes.map (fun n => (n.name, snapBytes n)) :=
    snapshotWalk_ok nodes [] snap (by simpa using hnd) hok
  subst hsnap
  have hvalid : snapshotValid (nodes.map RtNode.name)
      (nodes.map (fun n => (n.name, snapBytes n))) = true := by
    rw [snapshotValid, List.all_eq_true]
    intro x hx
    rw [List.mem_map] at hx
    obtain ⟨n, hn, rfl⟩ := hx
    rw [lookup_map_name snapBytes nodes hnd n hn]
    rfl
  refine ⟨rfl, hvalid, ?_⟩
  rw [startStates]
  rw [if_pos hvalid, List.map_map]
  refine List.map_congr_left ?_
  intro n hn
  simp only [Function.comp_apply]
  rw [lookup_map_name snapBytes nodes hnd n hn]

/-- C10 witness: two nodes with distinct names and successful snapshots. -/
theorem snapshot_restore_roundtrip_witness :
    (([⟨"a", Except.ok [1]⟩, ⟨"b", Except.ok [2, 3]⟩] : List RtNode).map RtNode.name).Nodup
      ∧ ETSnapshot [⟨"a", Except.ok [1]⟩, ⟨"b", Except.ok [2, 3]⟩]
          = Except.ok [("a", [1]), ("b", [2, 3])]
      ∧ ([("a", [1]), ("b", [2, 3])] : List (String × Bytes))
          = ([⟨"a", Except.ok [1]⟩, ⟨"b", Except.ok [2, 3]⟩] : List RtNode).map
              (fun n => (n.name, snapBytes n))
      ∧ snapshotValid (([⟨"a", Except.ok [1]⟩, ⟨"b", Except.ok [2, 3]⟩] : List RtNode).map
            RtNode.name) [("a", [1]), ("b", [2, 3])] = true
      ∧ startStates (([⟨"a", Except.ok [1]⟩, ⟨"b", Except.ok [2, 3]⟩] : List RtNode).map
            RtNode.name) (some [("a", [1]), ("b", [2, 3])])
          = ([⟨"a", Except.ok [1]⟩, ⟨"b", Except.ok [2, 3]⟩] : List RtNode).map
              (fun n => (n.name, some (snapBytes n))) :=
  ⟨by decide, by decide,
    snapshot_restore_roundtrip [⟨"a", Except.ok [1]⟩, ⟨"b", Except.ok [2, 3]⟩]
      [("a", [1]), ("b", [2, 3])] (by decide) (by decide)⟩

/-! ## C9: lexer token positions -/

theorem keywordKind_ne_eof (lit : List Nat) : keywordKind lit ≠ TokKind.tokEOF := by
  unfold keywordKind
  split_ifs <;> decide

theorem numTok_ne_eof (rest : List Nat) : (numTok rest).1 ≠ TokKind.tokEOF := by
  simp only [numTok]
  split <;> exact fun hc => TokKind.noConfusion hc

theorem identTok_ne_eof (rest : List Nat) : (identTok rest).1 ≠ TokKind.tokEOF :=
  keywordKind_ne_eof _

/-- `nextTok` never produces the EOF kind. -/
theorem nextTok_ne_eof (regexOk : Bool) (rest : List Nat) (k : TokKind) (n : Nat)
    (h : nextTok regexOk rest = some (k, n)) : k ≠ TokKind.tokEOF := by
  unfold nextTok at h
  repeat' split at h
  all_goals
    first
      | exact Option.noConfusion h
      | (injection h with h1
         have hk : k = _ := (congrArg Prod.fst h1).symm
         subst hk
         first
           | exact fun hc => TokKind.noConfusion hc
           | exact numTok_ne_eof _
           | exact identTok_ne_eof _)
      | (rw [Option.map_eq_some'] at h
         obtain ⟨m, -, h1⟩ := h
         have hk : k = _ := (congrArg Prod.fst h1).symm
         subst hk
         exact fun hc => TokKind.noConfusion hc)

/-- Shape of every successful lexer run from byte position `pos`: the
token list is a run of non-EOF tokens followed by exactly one EOF token
positioned at `pos` plus the number of remaining bytes, and every non-EOF
token has a nonempty literal that occupies the source bytes starting at
its position. -/
theorem runLex_shape (fuel : Nat) :
    ∀ (rest : List Nat) (pos : Nat) (ctx : Bool) (toks : List Token),
      runLex fuel rest pos ctx = some toks →
      ∃ ts, toks = ts ++ [⟨TokKind.tokEOF, pos + rest.length, []⟩] ∧
        ∀ t ∈ ts, t.kind ≠ TokKind.tokEOF ∧ pos ≤ t.pos ∧ t.lit ≠ [] ∧
          (rest.drop (t.pos - pos)).take t.lit.length = t.lit := by
  induction fuel with
  | zero =>
    intro rest pos ctx toks h
    exact Option.noConfusion h
  | succ fuel ih =>
    intro rest pos ctx toks h
    cases rest with
    | nil =>
      simp only [runLex, Option.some.injEq] at h
      subst h
      exact ⟨[], by simp, by simp⟩
    | cons b r =>
      simp only [runLex] at h
      split at h
      · -- whitespace: skip one byte
        obtain ⟨ts, rfl, hts⟩ := ih r (pos + 1) ctx toks h
        refine ⟨ts, ?_, ?_⟩
        · have e : pos + 1 + r.length = pos + (b :: r).length := by
            simp [List.length_cons]
            omega
          rw [e]
        · intro t ht
          obtain ⟨h1, h2, h3, h4⟩ := hts t ht
          refine ⟨h1, by omega, h3, ?_⟩
          have e2 : t.pos - pos = (t.pos - (pos + 1)) + 1 := by omega
          rw [e2, List.drop_succ_cons]
          exact h4
      · -- line comment or token
        split at h
        · -- line comment: skip through the newline
          split at h
          · next hk =>
            obtain ⟨ts, rfl, hts⟩ := ih _ _ _ _ h
            refine ⟨ts, ?_, ?_⟩
            · have e : pos + commentLen (b :: r) + ((b :: r).drop (commentLen (b :: r))).length
                  = pos + (b :: r).length := by
                rw [List.length_drop]
                omega
              rw [e]
            · intro t ht
              obtain ⟨h1, h2, h3, h4⟩ := hts t ht
              refine ⟨h1, by omega, h3, ?_⟩
              rw [List.drop_drop] at h4
              have e2 : t.pos - pos
                  = commentLen (b :: r) + (t.pos - (pos + commentLen (b :: r))) := by
                omega
              rw [e2]
              exact h4
          · exact Option.noConfusion h
        · -- a token
          split at h
          · exact Option.noConfusion h
          · next kind n hnt =>
            split at h
            · next hn =>
              rw [Option.map_eq_some'] at h
              obtain ⟨toks0, hrec, htoks⟩ := h
              subst htoks
              obtain ⟨ts, rfl, hts⟩ := ih _ _ _ _ hrec
              refine ⟨⟨kind, pos, (b :: r).take n⟩ :: ts, ?_, ?_⟩
              · have e : pos + n + ((b :: r).drop n).length = pos + (b :: r).length := by
                  rw [List.length_drop]
                  omega
                rw [e, List.cons_append]
              · intro t ht
                rcases List.mem_cons.mp ht with rfl | ht'
                · refine ⟨nextTok_ne_eof ctx (b :: r) kind n hnt, le_refl pos, ?_, ?_⟩
                  · have hlen : ((b :: r).take n).length = n := by
                      rw [List.length_take]
                      omega
                    intro hc
                    have h0 : List.take n (b :: r) = [] := hc
                    rw [h0] at hlen
                    simp at hlen
                    omega
                  · simp only [Nat.sub_self, List.drop_zero]
                    rw [List.length_take]
                    congr 1
                    omega
                · obtain ⟨h1, h2, h3, h4⟩ := hts t ht'
                  refine ⟨h1, by omega, h3, ?_⟩
                  rw [List.drop_drop] at h4
                  have e2 : t.pos - pos = n + (t.pos - (pos + n)) := by omega
                  rw [e2]
                  exact h4
            · exact Option.noConfusion h

/-- C9.  For every source whose lexing succeeds, the token sequence ends
in exactly one EOF token whose position is the byte length of the source,
and every other token is non-EOF with a nonempty literal equal to the
source bytes starting at the token's position (its position is the byte
offset of its first character). -/
theorem lexAll_eof_position (src : List Nat) (toks : List Token)
    (h : lexAll src = some toks) :
    toks.getLast? = some ⟨TokKind.tokEOF, src.length, []⟩
      ∧ toks.dropLast.all
          (fun t => decide (t.kind ≠ TokKind.tokEOF) && decide (t.lit ≠ [])
            && decide ((src.drop t.pos).take t.lit.length = t.lit)) = true := by
  obtain ⟨ts, rfl, hts⟩ := runLex_shape (src.length + 1) src 0 false toks h
  constructor
  · simp [List.getLast?_concat]
  · rw [List.dropLast_concat, List.all_eq_true]
    intro t ht
    obtain ⟨h1, h2, h3, h4⟩ := hts t ht
    simp only [Bool.and_eq_true, decide_eq_true_eq]
    exact ⟨⟨h1, h3⟩, by simpa using h4⟩

/-- C9 witness: the seed program `var x = avg()` lexes to the expected
seven tokens; the theorem applies to it. -/
theorem lexAll_eof_position_witness :
    lexAll (strBytes ("var x = avg()"))
        = some [⟨TokKind.tokVar, 0, strBytes ("var")⟩, ⟨TokKind.tokIdent, 4, strBytes ("x")⟩,
            ⟨TokKind.tokAsgn, 6, strBytes ("=")⟩, ⟨TokKind.tokIdent, 8, strBytes ("avg")⟩,
            ⟨TokKind.tokLParen, 11, strBytes ("(")⟩, ⟨TokKind.tokRParen, 12, strBytes (")")⟩,
            ⟨TokKind.tokEOF, 13, []⟩]
      ∧ ([⟨TokKind.tokVar, 0, strBytes ("var")⟩, ⟨TokKind.tokIdent, 4, strBytes ("x")⟩,
            ⟨TokKind.tokAsgn, 6, strBytes ("=")⟩, ⟨TokKind.tokIdent, 8, strBytes ("avg")⟩,
            ⟨TokKind.tokLParen, 11, strBytes ("(")⟩, ⟨TokKind.tokRParen, 12, strBytes (")")⟩,
            ⟨TokKind.tokEOF, 13, []⟩] : List Token).getLast?
          = some ⟨TokKind.tokEOF, (strBytes ("var x = avg()")).length, []⟩
      ∧ ([⟨TokKind.tokVar, 0, strBytes ("var")⟩, ⟨TokKind.tokIdent, 4, strBytes ("x")⟩,
            ⟨TokKind.tokAsgn, 6, strBytes ("=")⟩, ⟨TokKind.tokIdent, 8, strBytes ("avg")⟩,
            ⟨TokKind.tokLParen, 11, strBytes ("(")⟩, ⟨TokKind.tokRParen, 12, strBytes (")")⟩,
            ⟨TokKind.tokEOF, 13, []⟩] : List Token).dropLast.all
          (fun t => decide (t.kind ≠ TokKind.tokEOF) && decide (t.lit ≠ [])
            && decide (((strBytes ("var x = avg()")).drop t.pos).take t.lit.length = t.lit))
          = true :=
  ⟨by decide,
    (lexAll_eof_position (strBytes ("var x = avg()")) _ (by decide)).1,
    (lexAll_eof_position (strBytes ("var x = avg()")) _ (by decide)).2⟩

/-! ## Model validation against the repository's seed scenarios and
`tick/lex_test.go` expected token streams -/

example :
    (updateFlapping (1/4) (1/2) ⟨[0, 3, 0, 0], 3, false⟩ 3).flapping = true := by
  norm_num [updateFlapping, flapChanges, List.range_succ, maxWeight, weightDiff]

example : flapChanges [0, 3, 0, 3] 0 / ((3 : Nat) : ℚ) = 14 / 15 := by
  norm_num [flapChanges, List.range_succ, maxWeight, weightDiff]

example :
    lexAll (strBytes (".421"))
      = some [⟨TokKind.tokDot, 0, strBytes (".")⟩, ⟨TokKind.tokNumber, 1, strBytes ("421")⟩,
          ⟨TokKind.tokEOF, 4, []⟩] := by decide

example :
    lexAll (strBytes ("42.21m"))
      = some [⟨TokKind.tokDuration, 0, strBytes ("42.21m")⟩, ⟨TokKind.tokEOF, 6, []⟩] := by
  decide

example :
    lexAll (strBytes ("1ms"))
      = some [⟨TokKind.tokDuration, 0, strBytes ("1ms")⟩, ⟨TokKind.tokEOF, 3, []⟩] := by
  decide

example :
    lexAll (strBytes ("1") ++ [194, 181])
      = some [⟨TokKind.tokDuration, 0, strBytes ("1") ++ [194, 181]⟩,
          ⟨TokKind.tokEOF, 3, []⟩] := by decide

example :
    lexAll (strBytes ("= //"))
      = some [⟨TokKind.tokAsgn, 0, strBytes ("=")⟩, ⟨TokKind.tokRegex, 2, strBytes ("//")⟩,
          ⟨TokKind.tokEOF, 4, []⟩] := by decide

example :
    lexAll (strBytes ("/"))
      = some [⟨TokKind.tokDiv, 0, strBytes ("/")⟩, ⟨TokKind.tokEOF, 1, []⟩] := by decide

example :
    lexAll (strBytes ("var x = avg()" ++ "\n" ++ "// Comment all of this is ignored"))
      = some [⟨TokKind.tokVar, 0, strBytes ("var")⟩, ⟨TokKind.tokIdent, 4, strBytes ("x")⟩,
          ⟨TokKind.tokAsgn, 6, strBytes ("=")⟩, ⟨TokKind.tokIdent, 8, strBytes ("avg")⟩,
          ⟨TokKind.tokLParen, 11, strBytes ("(")⟩, ⟨TokKind.tokRParen, 12, strBytes (")")⟩,
          ⟨TokKind.tokEOF, 47, []⟩] := by decide

end Kapacitor
